import Mathlib

/-!
Shallow embedding of the payment-system repository (Go, PostgreSQL-backed).

The Ledger Store is `internal/db` (`PostgresRepository`): a `wallets` table
(`address TEXT PRIMARY KEY, balance FLOAT`) and an append-only `transactions`
table (`id SERIAL, from_address, to_address, amount, timestamp DEFAULT
CURRENT_TIMESTAMP`).  The database state is modelled as explicit row lists;
SQL statements are modelled row by row.  Balances and amounts are `ℚ`
(exact arithmetic standing in for the numeric columns).  Randomness
(`crypto/rand`) and the insert clock are oracle parameters.  Faults of the
underlying store (a failing `Exec`, `Begin` or `Commit`) are injected through
an explicit `Faults` record, so that every error path of `Send` is reachable
in the model; the `defer tx.Rollback()` discipline of the Go code means every
error return yields the pre-transfer state.
-/

namespace PaymentSystem

/-- A row of the `transactions` table: `id SERIAL PRIMARY KEY, from_address
TEXT, to_address TEXT, amount FLOAT, timestamp TIMESTAMP DEFAULT
CURRENT_TIMESTAMP` (`initTables`). -/
structure Txn where
  id : ℕ
  fromAddress : String
  toAddress : String
  amount : ℚ
  timestamp : ℕ
  deriving DecidableEq, Repr

/-- The database state owned by the Ledger Store: the `wallets` rows
(address, balance), the `transactions` rows, and the next value of the
`SERIAL` id sequence. -/
structure DBState where
  wallets : List (String × ℚ)
  transactions : List Txn
  nextId : ℕ
  deriving DecidableEq, Repr

/-- `SELECT balance FROM wallets WHERE address = $1`: the balance of the
first row whose address matches, `none` when no row matches
(`sql.ErrNoRows`). -/
def selectBalance : List (String × ℚ) → String → Option ℚ
  | [], _ => none
  | (a, b) :: rest, addr => if a = addr then some b else selectBalance rest addr

/-- `UPDATE wallets SET balance = f(balance) WHERE address = $2`: every row
whose address matches gets the new balance; matching zero rows is not an
error in SQL. -/
def updateAll (rows : List (String × ℚ)) (addr : String) (f : ℚ → ℚ) :
    List (String × ℚ) :=
  rows.map (fun r => if r.1 = addr then (r.1, f r.2) else r)

/-- Sum of the `balance` column over the whole `wallets` table. -/
def sumBalances (rows : List (String × ℚ)) : ℚ :=
  (rows.map Prod.snd).sum

/-- Every balance in the `wallets` table is nonnegative. -/
def allNonneg (rows : List (String × ℚ)) : Bool :=
  rows.all (fun r => 0 ≤ r.2)

/-- `INSERT INTO transactions (from_address, to_address, amount) VALUES
($1, $2, $3)`: the serial id comes from the sequence, the timestamp from the
server clock (`now`). -/
def insertTxn (s : DBState) (fromAddr toAddr : String) (amount : ℚ)
    (now : ℕ) : DBState :=
  { s with
    transactions :=
      s.transactions ++
        [{ id := s.nextId, fromAddress := fromAddr, toAddress := toAddr,
           amount := amount, timestamp := now }]
    nextId := s.nextId + 1 }

/-- Injected store faults: each flag makes the corresponding database call of
`PostgresRepository.Send` return a non-nil error. -/
structure Faults where
  beginFail : Bool
  selectFail : Bool
  updateFromFail : Bool
  updateToFail : Bool
  insertFail : Bool
  commitFail : Bool
  deriving DecidableEq, Repr

/-- The fault-free store. -/
def noFaults : Faults :=
  { beginFail := false, selectFail := false, updateFromFail := false,
    updateToFail := false, insertFail := false, commitFail := false }

/-- The error returns of `PostgresRepository.Send`, one per `return` site:
`failed to begin transaction`, `failed to get sender balance` (either
`sql.ErrNoRows` or a query fault), `insufficient funds`, `failed to update
sender balance`, `failed to update receiver balance`, `failed to record
transaction`, and a failing `tx.Commit()`. -/
inductive SendError where
  | beginFault
  | senderNotFound
  | senderQueryFault
  | insufficientFunds
  | updateSenderFault
  | updateReceiverFault
  | insertFault
  | commitFault
  deriving DecidableEq, Repr

/-- `PostgresRepository.Send(from, to, amount)`.  All statements run on one
SQL transaction `tx` with `defer tx.Rollback()`; only `tx.Commit()` at the
end publishes the new rows, so every error return leaves the database state
unchanged.  The body, in source order: begin; `SELECT balance ... WHERE
address = from` (error when the row is absent); `if fromBalance < amount`
return insufficient funds; debit the sender; credit the receiver; insert the
transaction record; commit.  There is no validation of `amount` and no check
that the receiver row exists (an `UPDATE` matching zero rows succeeds). -/
def Send (f : Faults) (now : ℕ) (s : DBState) (fromAddr toAddr : String)
    (amount : ℚ) : Except SendError Unit × DBState :=
  if f.beginFail then (.error .beginFault, s)
  else if f.selectFail then (.error .senderQueryFault, s)
  else
    match selectBalance s.wallets fromAddr with
    | none => (.error .senderNotFound, s)
    | some fromBalance =>
      if fromBalance < amount then (.error .insufficientFunds, s)
      else
        let s1 := { s with wallets := updateAll s.wallets fromAddr (· - amount) }
        if f.updateFromFail then (.error .updateSenderFault, s)
        else
          let s2 := { s1 with wallets := updateAll s1.wallets toAddr (· + amount) }
          if f.updateToFail then (.error .updateReceiverFault, s)
          else
            let s3 := insertTxn s2 fromAddr toAddr amount now
            if f.insertFail then (.error .insertFault, s)
            else if f.commitFail then (.error .commitFault, s)
            else (.ok (), s3)

/-- `PostgresRepository.GetBalance(address)`: a point read; `sql.ErrNoRows`
surfaces as an error.  It mutates nothing. -/
def GetBalance (s : DBState) (address : String) : Except Unit ℚ :=
  match selectBalance s.wallets address with
  | none => .error ()
  | some b => .ok b

/-- `generateWallets(db, count, balance)`: for each of the `count` freshly
generated random addresses (the oracle list `addrs`), run `INSERT INTO
wallets (address, balance) VALUES ($1, $2) ON CONFLICT (address) DO
NOTHING`. -/
def generateWallets (addrs : List String) (balance : ℚ) (s : DBState) :
    DBState :=
  addrs.foldl
    (fun st a =>
      if (st.wallets.map Prod.fst).contains a then st
      else { st with wallets := st.wallets ++ [(a, balance)] })
    s

/-- The rows returned by `SELECT from_address, to_address, amount, timestamp
FROM transactions ORDER BY timestamp DESC LIMIT $1`, in order: weakly
descending timestamps. -/
def sortedByTimestampDesc (l : List Txn) : Prop :=
  List.Chain' (fun a b => b.timestamp ≤ a.timestamp) l

/-- `PostgresRepository.GetLastTransactions(count)` as a relation between the
`transactions` table and a possible result list.  The SQL sorts by
`timestamp DESC` only — PostgreSQL guarantees nothing about the relative
order of rows with equal timestamps — then truncates to `LIMIT count`.  A
result is valid when it is the `count`-prefix of some reordering of the
table whose timestamps are weakly descending. -/
def GetLastTransactionsValid (table : List Txn) (count : ℕ)
    (res : List Txn) : Prop :=
  ∃ full : List Txn,
    List.Perm full table ∧ sortedByTimestampDesc full ∧ res = full.take count

/-- Modelled from the spec's claim wording (the ordering `GetLastTransactions`
is claimed to satisfy): timestamps descending with ties broken by the
insertion identifier descending. -/
def claimTieOrdered (l : List Txn) : Prop :=
  List.Chain'
    (fun a b =>
      b.timestamp < a.timestamp ∨ (b.timestamp = a.timestamp ∧ b.id < a.id)) l

/-- `hex.EncodeToString`'s digit alphabet (Go's `encoding/hex` uses the
lowercase table `0123456789abcdef`). -/
def hexDigits : List Char :=
  "0123456789abcdef".data

/-- One byte rendered as two hex characters, high nibble first. -/
def hexEncodeByte (b : ℕ) : List Char :=
  [hexDigits.getD (b / 16) '0', hexDigits.getD (b % 16) '0']

/-- `hex.EncodeToString(buffer)` over a byte sequence. -/
def hexEncodeToString (bytes : List ℕ) : String :=
  ⟨bytes.flatMap hexEncodeByte⟩

/-- `GenerateAddress()` on a successful `rand.Read`: the 32 random bytes the
kernel delivered are the oracle `randomBytes`; the result hex-encodes
them.  (On a failing `rand.Read` the function returns `""` and an error
instead; the oracle here is the success case.) -/
def GenerateAddress (randomBytes : List ℕ) : String :=
  hexEncodeToString randomBytes

/-- `isValidAddress` from the API adapter: 64 characters, all of them
hexadecimal digits (`hex.DecodeString` succeeds exactly on an even-length
string of hex digits; 64 is even). -/
def isValidAddress (address : String) : Bool :=
  address.length = 64 && address.data.all (fun c => c.isDigit || ('a' ≤ c && c ≤ 'f') || ('A' ≤ c && c ≤ 'F'))

/-- The validation of a decoded `/api/send` request body in `SendHandler`
(after method, content-type and JSON checks): reject `amount <= 0` with
`Amount must be greater than 0`, then reject malformed addresses; only then
call `svc.Send`. -/
inductive HandlerError where
  | invalidAmount
  | invalidAddress
  deriving DecidableEq, Repr

/-- `SendHandler`'s request validation, in source order. -/
def sendHandlerCheck (fromAddr toAddr : String) (amount : ℚ) :
    Option HandlerError :=
  if amount ≤ 0 then some .invalidAmount
  else if !(isValidAddress fromAddr && isValidAddress toAddr) then
    some .invalidAddress
  else none

/-- `sortedByTimestampDesc` is decidable row by row. -/
instance (l : List Txn) : Decidable (sortedByTimestampDesc l) :=
  inferInstanceAs (Decidable (List.Chain' _ l))

/-- `claimTieOrdered` is decidable row by row. -/
instance (l : List Txn) : Decidable (claimTieOrdered l) :=
  inferInstanceAs (Decidable (List.Chain' _ l))

/-! ### Lemmas about the row-level SQL model -/

theorem updateAll_cons (r : String × ℚ) (rest : List (String × ℚ)) (addr : String)
    (f : ℚ → ℚ) :
    updateAll (r :: rest) addr f
      = (if r.1 = addr then (r.1, f r.2) else r) :: updateAll rest addr f := rfl

theorem selectBalance_cons (a : String) (b : ℚ) (rest : List (String × ℚ))
    (addr : String) :
    selectBalance ((a, b) :: rest) addr
      = if a = addr then some b else selectBalance rest addr := rfl

theorem keys_updateAll (rows : List (String × ℚ)) (addr : String) (f : ℚ → ℚ) :
    (updateAll rows addr f).map Prod.fst = rows.map Prod.fst := by
  induction rows with
  | nil => rfl
  | cons r rest ih =>
    rw [updateAll_cons, List.map_cons, List.map_cons, ih]
    by_cases hk : r.1 = addr
    · rw [if_pos hk]
    · rw [if_neg hk]

theorem selectBalance_updateAll_ne (rows : List (String × ℚ)) (addr other : String)
    (f : ℚ → ℚ) (h : other ≠ addr) :
    selectBalance (updateAll rows addr f) other = selectBalance rows other := by
  induction rows with
  | nil => rfl
  | cons r rest ih =>
    rcases r with ⟨a, c⟩
    rw [updateAll_cons]
    by_cases hk : a = addr
    · rw [if_pos hk]
      have hao : a ≠ other := fun hc => h (hc ▸ hk)
      rw [show ((a, c).1, f (a, c).2) = (a, f c) from rfl, selectBalance_cons,
        selectBalance_cons, if_neg hao, if_neg hao]
      exact ih
    · rw [if_neg hk, selectBalance_cons, selectBalance_cons]
      by_cases ho : a = other
      · rw [if_pos ho, if_pos ho]
      · rw [if_neg ho, if_neg ho]
        exact ih

theorem selectBalance_updateAll_self (rows : List (String × ℚ)) (addr : String)
    (f : ℚ → ℚ) :
    selectBalance (updateAll rows addr f) addr = (selectBalance rows addr).map f := by
  induction rows with
  | nil => rfl
  | cons r rest ih =>
    rcases r with ⟨a, c⟩
    rw [updateAll_cons]
    by_cases hk : a = addr
    · rw [if_pos hk, show ((a, c).1, f (a, c).2) = (a, f c) from rfl,
        selectBalance_cons, selectBalance_cons, if_pos hk, if_pos hk]
      rfl
    · rw [if_neg hk, selectBalance_cons, selectBalance_cons, if_neg hk, if_neg hk]
      exact ih

theorem updateAll_of_not_mem (rows : List (String × ℚ)) (addr : String) (f : ℚ → ℚ)
    (h : ∀ r ∈ rows, r.1 ≠ addr) : updateAll rows addr f = rows := by
  induction rows with
  | nil => rfl
  | cons r rest ih =>
    have hr : r.1 ≠ addr := h r (List.mem_cons_self r rest)
    rw [updateAll_cons, if_neg hr, ih (fun x hx => h x (List.mem_cons_of_mem r hx))]

theorem updateAll_updateAll_same (rows : List (String × ℚ)) (addr : String)
    (f g : ℚ → ℚ) :
    updateAll (updateAll rows addr f) addr g = updateAll rows addr (fun x => g (f x)) := by
  induction rows with
  | nil => rfl
  | cons r rest ih =>
    rw [updateAll_cons, updateAll_cons, updateAll_cons, ih]
    by_cases hk : r.1 = addr
    · rw [if_pos hk, if_pos hk, show ((r.1, f r.2) : String × ℚ).1 = r.1 from rfl,
        if_pos hk]
    · rw [if_neg hk, if_neg hk, if_neg hk]

theorem updateAll_id (rows : List (String × ℚ)) (addr : String) (f : ℚ → ℚ)
    (h : ∀ x, f x = x) : updateAll rows addr f = rows := by
  induction rows with
  | nil => rfl
  | cons r rest ih =>
    rw [updateAll_cons, ih]
    by_cases hk : r.1 = addr
    · rw [if_pos hk, h r.2]
    · rw [if_neg hk]

theorem sumBalances_cons (r : String × ℚ) (rows : List (String × ℚ)) :
    sumBalances (r :: rows) = r.2 + sumBalances rows := by
  simp [sumBalances]

theorem nodup_keys_cons (a : String) (c : ℚ) (rest : List (String × ℚ))
    (hnd : (((a, c) :: rest).map Prod.fst).Nodup) :
    a ∉ rest.map Prod.fst ∧ (rest.map Prod.fst).Nodup := by
  rw [List.map_cons] at hnd
  exact List.nodup_cons.mp hnd

theorem sumBalances_updateAll (rows : List (String × ℚ)) (addr : String)
    (f : ℚ → ℚ) (b : ℚ) (hnd : (rows.map Prod.fst).Nodup)
    (hsel : selectBalance rows addr = some b) :
    sumBalances (updateAll rows addr f) = sumBalances rows - b + f b := by
  induction rows with
  | nil => simp [selectBalance] at hsel
  | cons r rest ih =>
    rcases r with ⟨a, c⟩
    rcases nodup_keys_cons a c rest hnd with ⟨hna, hnd'⟩
    rw [updateAll_cons]
    by_cases hk : a = addr
    · have hb : c = b := by
        rw [selectBalance_cons, if_pos hk] at hsel
        exact Option.some.inj hsel
      have hnotin : ∀ x ∈ rest, x.1 ≠ addr := by
        intro x hx hxa
        exact hna (by rw [hk, ← hxa]; exact List.mem_map_of_mem Prod.fst hx)
      rw [if_pos hk, updateAll_of_not_mem rest addr f hnotin, sumBalances_cons,
        sumBalances_cons, hb]
      ring
    · have hsel' : selectBalance rest addr = some b := by
        rw [selectBalance_cons, if_neg hk] at hsel
        exact hsel
      rw [if_neg hk, sumBalances_cons, sumBalances_cons, ih hnd' hsel']
      ring

theorem selectBalance_eq_of_mem (rows : List (String × ℚ)) (addr : String) (b : ℚ)
    (r0 : String × ℚ) (hnd : (rows.map Prod.fst).Nodup)
    (hsel : selectBalance rows addr = some b) (hr : r0 ∈ rows) (hk : r0.1 = addr) :
    r0.2 = b := by
  induction rows with
  | nil => simp at hr
  | cons r rest ih =>
    rcases r with ⟨a, c⟩
    rcases nodup_keys_cons a c rest hnd with ⟨hna, hnd'⟩
    rcases List.mem_cons.mp hr with hr0 | hr0
    · subst hr0
      rw [selectBalance_cons, if_pos hk] at hsel
      exact Option.some.inj hsel
    · by_cases ha : a = addr
      · exfalso
        exact hna (by rw [ha, ← hk]; exact List.mem_map_of_mem Prod.fst hr0)
      · have hsel' : selectBalance rest addr = some b := by
          rw [selectBalance_cons, if_neg ha] at hsel
          exact hsel
        exact ih hnd' hsel' hr0

theorem selectBalance_isSome_of_mem (rows : List (String × ℚ)) (r0 : String × ℚ)
    (hr : r0 ∈ rows) : (selectBalance rows r0.1).isSome = true := by
  induction rows with
  | nil => simp at hr
  | cons r rest ih =>
    rcases List.mem_cons.mp hr with hr0 | hr0
    · subst hr0
      simp [selectBalance]
    · by_cases hk : r.1 = r0.1
      · simp [selectBalance, hk]
      · simp [selectBalance, hk]
        exact ih hr0

/-! ### Lemmas about `Send` -/

theorem Send_ok_or_unchanged (f : Faults) (now : ℕ) (s : DBState)
    (fa ta : String) (a : ℚ) :
    (Send f now s fa ta a).1 = .ok () ∨ (Send f now s fa ta a).2 = s := by
  unfold Send
  cases f.beginFail
  · cases f.selectFail
    · cases hsel : selectBalance s.wallets fa
      · simp
      · rename_i b
        by_cases hlt : b < a
        · simp [hlt]
        · cases f.updateFromFail
          · cases f.updateToFail
            · cases f.insertFail
              · cases f.commitFail <;> simp [hlt]
              · simp [hlt]
            · simp [hlt]
          · simp [hlt]
    · simp
  · simp

theorem bool_eq_false {b : Bool} (h : ¬ b = true) : b = false := by
  cases b
  · rfl
  · exact absurd rfl h

theorem Send_ok_inv (f : Faults) (now : ℕ) (s : DBState) (fa ta : String) (a : ℚ)
    (h : (Send f now s fa ta a).1 = .ok ()) :
    f.beginFail = false ∧ f.selectFail = false ∧ f.updateFromFail = false ∧
    f.updateToFail = false ∧ f.insertFail = false ∧ f.commitFail = false ∧
    ∃ b, selectBalance s.wallets fa = some b ∧ ¬ b < a := by
  unfold Send at h
  split at h
  · simp at h
  · rename_i hf1
    split at h
    · simp at h
    · rename_i hf2
      split at h
      · simp at h
      · rename_i b hsel
        split at h
        · simp at h
        · rename_i hlt
          split at h
          · simp at h
          · rename_i hf3
            split at h
            · simp at h
            · rename_i hf4
              split at h
              · simp at h
              · rename_i hf5
                split at h
                · simp at h
                · rename_i hf6
                  exact ⟨bool_eq_false hf1, bool_eq_false hf2, bool_eq_false hf3,
                    bool_eq_false hf4, bool_eq_false hf5, bool_eq_false hf6, b, hsel, hlt⟩

theorem Send_run_success (f : Faults) (now : ℕ) (s : DBState) (fa ta : String)
    (a b : ℚ) (h1 : f.beginFail = false) (h2 : f.selectFail = false)
    (h3 : f.updateFromFail = false) (h4 : f.updateToFail = false)
    (h5 : f.insertFail = false) (h6 : f.commitFail = false)
    (hsel : selectBalance s.wallets fa = some b) (hlt : ¬ b < a) :
    Send f now s fa ta a
      = (.ok (),
          insertTxn
            { s with
              wallets :=
                updateAll (updateAll s.wallets fa (fun x => x - a)) ta (fun x => x + a) }
            fa ta a now) := by
  unfold Send
  rw [h1, h2, h3, h4, h5, h6, hsel]
  simp [hlt, insertTxn]

theorem allNonneg_iff (rows : List (String × ℚ)) :
    allNonneg rows = true ↔ ∀ r ∈ rows, 0 ≤ r.2 := by
  simp [allNonneg]

theorem allNonneg_updateAll_credit (rows : List (String × ℚ)) (addr : String)
    (a : ℚ) (ha : 0 ≤ a) (hnn : allNonneg rows = true) :
    allNonneg (updateAll rows addr (fun x => x + a)) = true := by
  rw [allNonneg_iff] at hnn ⊢
  intro r hr
  unfold updateAll at hr
  rcases List.mem_map.mp hr with ⟨r0, hr0, heq⟩
  by_cases hk : r0.1 = addr
  · rw [if_pos hk] at heq
    rw [← heq]
    exact add_nonneg (hnn r0 hr0) ha
  · rw [if_neg hk] at heq
    rw [← heq]
    exact hnn r0 hr0

theorem allNonneg_updateAll_debit (rows : List (String × ℚ)) (addr : String)
    (a b : ℚ) (hnd : (rows.map Prod.fst).Nodup)
    (hsel : selectBalance rows addr = some b) (hba : a ≤ b)
    (hnn : allNonneg rows = true) :
    allNonneg (updateAll rows addr (fun x => x - a)) = true := by
  rw [allNonneg_iff] at hnn ⊢
  intro r hr
  unfold updateAll at hr
  rcases List.mem_map.mp hr with ⟨r0, hr0, heq⟩
  by_cases hk : r0.1 = addr
  · have hval : r0.2 = b := selectBalance_eq_of_mem rows addr b r0 hnd hsel hr0 hk
    rw [if_pos hk] at heq
    rw [← heq]
    show 0 ≤ r0.2 - a
    rw [hval]
    linarith
  · rw [if_neg hk] at heq
    rw [← heq]
    exact hnn r0 hr0

theorem insertTxn_wallets (s : DBState) (fa ta : String) (a : ℚ) (now : ℕ) :
    (insertTxn s fa ta a now).wallets = s.wallets := rfl

theorem insertTxn_transactions (s : DBState) (fa ta : String) (a : ℚ) (now : ℕ) :
    (insertTxn s fa ta a now).transactions
      = s.transactions ++ [⟨s.nextId, fa, ta, a, now⟩] := rfl

end PaymentSystem

open PaymentSystem

/-! ### Claims -/

/-- C1 counterexample: the Ledger Store itself does not reject `amount <= 0`.
Called directly with amount `0` and an existing sender, `PostgresRepository.Send`
succeeds and appends a zero-amount transaction record — a state change — rather
than failing with an `InvalidAmount` error. -/
theorem claim1_counterexample_store_accepts_zero_amount :
    (Send noFaults 0 ⟨[("w1", 100), ("w2", 50)], [], 1⟩ "w1" "w2" 0).1 = .ok () ∧
    (Send noFaults 0 ⟨[("w1", 100), ("w2", 50)], [], 1⟩ "w1" "w2" 0).2.transactions
      = [⟨1, "w1", "w2", 0, 0⟩] :=
  ⟨rfl, rfl⟩

/-- C1 (amended): the `amount <= 0` check lives only in the caller —
`SendHandler` rejects such a request body before the service is invoked — while
the Ledger Store performs no amount validation at all: any `Send` whose sender
row exists with balance at least `amount` succeeds regardless of the sign of
`amount`. -/
theorem claim1_amended_amount_check_in_handler_only :
    (∀ (fa ta : String) (amount : ℚ), amount ≤ 0 →
      sendHandlerCheck fa ta amount = some .invalidAmount) ∧
    (∀ (now : ℕ) (s : DBState) (fa ta : String) (amount b : ℚ),
      selectBalance s.wallets fa = some b → amount ≤ b →
      (Send noFaults now s fa ta amount).1 = .ok ()) := by
  constructor
  · intro fa ta amount h
    unfold sendHandlerCheck
    rw [if_pos h]
  · intro now s fa ta amount b hsel hba
    rw [Send_run_success noFaults now s fa ta amount b rfl rfl rfl rfl rfl rfl hsel
      (not_lt.mpr hba)]

/-- Witness for C1 (amended) at concrete inputs: the handler rejects amount 0,
and the store accepts a zero-amount transfer from an existing sender. -/
theorem claim1_witness :
    sendHandlerCheck "w1" "w2" 0 = some .invalidAmount ∧
    (Send noFaults 0 ⟨[("w1", 100)], [], 1⟩ "w1" "w2" 0).1 = .ok () :=
  ⟨claim1_amended_amount_check_in_handler_only.1 "w1" "w2" 0 (le_refl 0),
    claim1_amended_amount_check_in_handler_only.2 0 ⟨[("w1", 100)], [], 1⟩ "w1" "w2" 0 100
      rfl (by decide)⟩

/-- C2: the code, evaluated at the claim's failing input.  With the sender
`"w1"` holding balance 100 and no wallet row for `"w2"`, `Send("w1", "w2", 10)`
does not fail with `NotFound`: the receiver `UPDATE` matches zero rows — not an
error in SQL — so the unit commits: the sender is debited to 90, no wallet is
credited, and a transaction record is appended.  Money leaves the system. -/
theorem claim2_missing_receiver_commits :
    (Send noFaults 0 ⟨[("w1", 100)], [], 1⟩ "w1" "w2" 10).1 = .ok () ∧
    (Send noFaults 0 ⟨[("w1", 100)], [], 1⟩ "w1" "w2" 10).2
      = ⟨[("w1", 90)], [⟨1, "w1", "w2", 10, 0⟩], 2⟩ := by
  constructor
  · rfl
  · simp [Send, noFaults, selectBalance, updateAll, insertTxn]
    norm_num

/-- C4: the code, evaluated at the claim's scenario.  `generateWallets` draws
ten fresh random addresses on every run (modelled as the oracle address lists),
and `ON CONFLICT (address) DO NOTHING` only suppresses colliding addresses, so
a second seeding run against the already-seeded store inserts ten further
rows: 20 wallets, not 10.  (`NewPostgresRepository`'s own doc comment promises
wallets are created only if the table is empty, but the code calls
`generateWallets` unconditionally.) -/
theorem claim4_seeding_twice_doubles_wallets :
    ((generateWallets ["a0","a1","a2","a3","a4","a5","a6","a7","a8","a9"] 100
        ⟨[], [], 1⟩).wallets.length = 10) ∧
    ((generateWallets ["b0","b1","b2","b3","b4","b5","b6","b7","b8","b9"] 100
        (generateWallets ["a0","a1","a2","a3","a4","a5","a6","a7","a8","a9"] 100
          ⟨[], [], 1⟩)).wallets.length = 20) :=
  ⟨rfl, rfl⟩

/-- C5: a `Send` that returns an error at any stage — missing sender,
insufficient funds, or a faulting begin/update/insert/commit — leaves the
wallet rows and the transaction table exactly as they were before the attempt:
every error return of `PostgresRepository.Send` happens before `tx.Commit()`,
so the deferred rollback discards the whole unit of work. -/
theorem claim5_failed_send_leaves_state_unchanged (f : Faults) (now : ℕ)
    (s : DBState) (fa ta : String) (a : ℚ) (e : SendError)
    (h : (Send f now s fa ta a).1 = .error e) :
    (Send f now s fa ta a).2 = s := by
  rcases Send_ok_or_unchanged f now s fa ta a with h1 | h1
  · rw [h] at h1
    exact Except.noConfusion h1
  · exact h1

/-- Witness for C5: an insufficient-funds failure at a concrete input leaves
the concrete state untouched. -/
theorem claim5_witness :
    (Send noFaults 0 ⟨[("w1", 5)], [], 1⟩ "w1" "w2" 10).1
        = .error .insufficientFunds ∧
    (Send noFaults 0 ⟨[("w1", 5)], [], 1⟩ "w1" "w2" 10).2 = ⟨[("w1", 5)], [], 1⟩ :=
  ⟨rfl,
    claim5_failed_send_leaves_state_unchanged noFaults 0 ⟨[("w1", 5)], [], 1⟩ "w1" "w2"
      10 .insufficientFunds rfl⟩

/-- C6 counterexample: a successful `Send` from `"a"` to the absent address
`"b"` (so `A != B`) destroys value — the receiver `UPDATE` matches no row, yet
the transfer commits, so the sum of all wallet balances drops from 100 to 90.
The conservation claim, quantified over every successful transfer, is false. -/
theorem claim6_counterexample_missing_receiver_breaks_conservation :
    (Send noFaults 0 ⟨[("a", 100)], [], 1⟩ "a" "b" 10).1 = .ok () ∧
    sumBalances (Send noFaults 0 ⟨[("a", 100)], [], 1⟩ "a" "b" 10).2.wallets = 90 ∧
    sumBalances ((⟨[("a", 100)], [], 1⟩ : DBState)).wallets = 100 := by
  refine ⟨rfl, ?_, ?_⟩
  · simp [Send, noFaults, selectBalance, updateAll, insertTxn, sumBalances]
    norm_num
  · simp [sumBalances]

/-- C6 (amended): for every successful `Send(A, B, a)` with `A != B` in which
both wallet rows exist (addresses being unique, as the `PRIMARY KEY` column
guarantees), `balance(A)` decreases by exactly `a`, `balance(B)` increases by
exactly `a`, and the sum of all balances is unchanged. -/
theorem claim6_amended_conservation_both_exist (f : Faults) (now : ℕ)
    (s : DBState) (A B : String) (a bA bB : ℚ)
    (hnd : (s.wallets.map Prod.fst).Nodup) (hAB : A ≠ B)
    (hA : selectBalance s.wallets A = some bA)
    (hB : selectBalance s.wallets B = some bB)
    (hok : (Send f now s A B a).1 = .ok ()) :
    selectBalance (Send f now s A B a).2.wallets A = some (bA - a) ∧
    selectBalance (Send f now s A B a).2.wallets B = some (bB + a) ∧
    sumBalances (Send f now s A B a).2.wallets = sumBalances s.wallets := by
  obtain ⟨h1, h2, h3, h4, h5, h6, b, hsel, hlt⟩ := Send_ok_inv f now s A B a hok
  have hb : b = bA := by
    rw [hA] at hsel
    exact (Option.some.inj hsel).symm
  subst hb
  rw [Send_run_success f now s A B a b h1 h2 h3 h4 h5 h6 hA hlt]
  refine ⟨?_, ?_, ?_⟩
  · show selectBalance
        (updateAll (updateAll s.wallets A (fun x => x - a)) B (fun x => x + a)) A
      = some (b - a)
    rw [selectBalance_updateAll_ne _ B A _ hAB, selectBalance_updateAll_self, hA]
    rfl
  · show selectBalance
        (updateAll (updateAll s.wallets A (fun x => x - a)) B (fun x => x + a)) B
      = some (bB + a)
    rw [selectBalance_updateAll_self,
      selectBalance_updateAll_ne s.wallets A B _ (Ne.symm hAB), hB]
    rfl
  · show sumBalances
        (updateAll (updateAll s.wallets A (fun x => x - a)) B (fun x => x + a))
      = sumBalances s.wallets
    have hselB1 : selectBalance (updateAll s.wallets A (fun x => x - a)) B
        = some bB := by
      rw [selectBalance_updateAll_ne s.wallets A B _ (Ne.symm hAB), hB]
    have hnd1 : ((updateAll s.wallets A (fun x => x - a)).map Prod.fst).Nodup := by
      rw [keys_updateAll]
      exact hnd
    rw [sumBalances_updateAll _ B _ bB hnd1 hselB1,
      sumBalances_updateAll s.wallets A _ b hnd hA]
    ring

/-- Witness for C6 (amended) at a concrete two-wallet state. -/
theorem claim6_witness :
    selectBalance (Send noFaults 0 ⟨[("a", 100), ("b", 20)], [], 1⟩ "a" "b"
        30).2.wallets "a" = some (100 - 30) ∧
    selectBalance (Send noFaults 0 ⟨[("a", 100), ("b", 20)], [], 1⟩ "a" "b"
        30).2.wallets "b" = some (20 + 30) ∧
    sumBalances (Send noFaults 0 ⟨[("a", 100), ("b", 20)], [], 1⟩ "a" "b"
        30).2.wallets = sumBalances [("a", (100 : ℚ)), ("b", 20)] :=
  claim6_amended_conservation_both_exist noFaults 0 ⟨[("a", 100), ("b", 20)], [], 1⟩
    "a" "b" 30 100 20 (by decide) (by decide) rfl rfl rfl

/-- C7 counterexample: the solvency claim quantifies over every `Send` the
store accepts, but the store never validates the amount, and a negative amount
passes the funds check (`100 < -50` is false); the credit side then drives the
receiver negative: starting from nonnegative balances 100 and 20, the transfer
of `-50` succeeds and leaves the receiver at `-30`. -/
theorem claim7_counterexample_negative_amount_breaks_solvency :
    allNonneg [("a", (100 : ℚ)), ("b", 20)] = true ∧
    (Send noFaults 0 ⟨[("a", 100), ("b", 20)], [], 1⟩ "a" "b" (-50)).1 = .ok () ∧
    selectBalance (Send noFaults 0 ⟨[("a", 100), ("b", 20)], [], 1⟩ "a" "b"
        (-50)).2.wallets "b" = some (-30) ∧
    allNonneg (Send noFaults 0 ⟨[("a", 100), ("b", 20)], [], 1⟩ "a" "b"
        (-50)).2.wallets = false := by
  refine ⟨by decide, rfl, ?_, ?_⟩
  · simp [Send, noFaults, selectBalance, updateAll, insertTxn]
    norm_num
  · simp [Send, noFaults, selectBalance, updateAll, insertTxn, allNonneg]
    norm_num
    exact ⟨"b", -30, Or.inr ⟨rfl, rfl⟩, by norm_num⟩

/-- C7 (amended): for a strictly positive amount — which is all the API layer
lets through — every `Send` preserves nonnegativity of all balances, whatever
its outcome, provided wallet addresses are unique (the `PRIMARY KEY`
constraint).  The read paths (`GetBalance`, `GetLastTransactions`) take the
state as input and return no state, so they cannot break the invariant. -/
theorem claim7_amended_positive_amount_preserves_solvency (f : Faults) (now : ℕ)
    (s : DBState) (fa ta : String) (amount : ℚ)
    (hnd : (s.wallets.map Prod.fst).Nodup)
    (hnn : allNonneg s.wallets = true) (hpos : 0 < amount) :
    allNonneg (Send f now s fa ta amount).2.wallets = true := by
  rcases Send_ok_or_unchanged f now s fa ta amount with hok | hunch
  · obtain ⟨h1, h2, h3, h4, h5, h6, b, hsel, hlt⟩ := Send_ok_inv f now s fa ta amount hok
    rw [Send_run_success f now s fa ta amount b h1 h2 h3 h4 h5 h6 hsel hlt,
      insertTxn_wallets]
    show allNonneg
        (updateAll (updateAll s.wallets fa (fun x => x - amount)) ta
          (fun x => x + amount)) = true
    have hdeb : allNonneg (updateAll s.wallets fa (fun x => x - amount)) = true :=
      allNonneg_updateAll_debit s.wallets fa amount b hnd hsel (not_lt.mp hlt) hnn
    exact allNonneg_updateAll_credit _ ta amount (le_of_lt hpos) hdeb
  · rw [hunch]
    exact hnn

/-- Witness for C7 (amended) at a concrete state. -/
theorem claim7_witness :
    allNonneg (Send noFaults 0 ⟨[("a", 100)], [], 1⟩ "a" "b" 30).2.wallets = true :=
  claim7_amended_positive_amount_preserves_solvency noFaults 0 ⟨[("a", 100)], [], 1⟩
    "a" "b" 30 (by decide) (by decide) (by decide)

/-- C8: when the sender row exists and the store does not fault before the
funds check, `Send` fails with `insufficient funds` exactly when the sender's
balance is strictly below the requested amount; in particular a transfer of
the full balance passes the check (the comparison is `fromBalance < amount`). -/
theorem claim8_insufficient_funds_iff_balance_lt_amount (f : Faults) (now : ℕ)
    (s : DBState) (fa ta : String) (amount b : ℚ) (hpos : 0 < amount)
    (hsel : selectBalance s.wallets fa = some b)
    (h1 : f.beginFail = false) (h2 : f.selectFail = false) :
    ((Send f now s fa ta amount).1 = .error .insufficientFunds ↔ b < amount) := by
  unfold Send
  rw [h1, h2, hsel]
  by_cases hlt : b < amount
  · simp [hlt]
  · cases f.updateFromFail <;> cases f.updateToFail <;> cases f.insertFail <;>
      cases f.commitFail <;> simp [hlt]

/-- Witness for C8: balance 10 against amount 15 fails with insufficient
funds. -/
theorem claim8_witness :
    (Send noFaults 0 ⟨[("w1", 10)], [], 1⟩ "w1" "w2" 15).1
      = .error .insufficientFunds :=
  (claim8_insufficient_funds_iff_balance_lt_amount noFaults 0 ⟨[("w1", 10)], [], 1⟩
    "w1" "w2" 15 10 (by decide) rfl rfl rfl).mpr (by decide)

namespace PaymentSystem

theorem hexDigits_getD_mem (i : ℕ) (h : i < 16) : hexDigits.getD i '0' ∈ hexDigits := by
  interval_cases i <;> decide

theorem hexEncodeToString_length (bytes : List ℕ) :
    (hexEncodeToString bytes).length = 2 * bytes.length := by
  show (bytes.flatMap hexEncodeByte).length = 2 * bytes.length
  induction bytes with
  | nil => rfl
  | cons b rest ih =>
    rw [List.flatMap_cons, List.length_append, ih, List.length_cons]
    show 2 + 2 * rest.length = 2 * (rest.length + 1)
    ring

theorem hexEncodeToString_mem (bytes : List ℕ) (hb : ∀ b ∈ bytes, b < 256)
    (c : Char) (hc : c ∈ (hexEncodeToString bytes).data) : c ∈ hexDigits := by
  have hc' : c ∈ bytes.flatMap hexEncodeByte := hc
  rcases List.mem_flatMap.mp hc' with ⟨b, hbmem, hcb⟩
  have hhi : b / 16 < 16 := Nat.div_lt_of_lt_mul (by
    have := hb b hbmem
    omega)
  have hlo : b % 16 < 16 := Nat.mod_lt _ (by omega)
  rcases List.mem_cons.mp hcb with hce | hcb2
  · rw [hce]
    exact hexDigits_getD_mem _ hhi
  · rcases List.mem_cons.mp hcb2 with hce | hcb3
    · rw [hce]
      exact hexDigits_getD_mem _ hlo
    · simp at hcb3

end PaymentSystem

/-- C9: on a successful `rand.Read` of the 32-byte buffer, `GenerateAddress`
returns the lowercase-hex encoding of those bytes: a string of exactly 64
characters, each drawn from `0123456789abcdef` (Go's `encoding/hex` lowercase
alphabet).  The bytes come from `crypto/rand`, modelled here as the oracle
`randomBytes`. -/
theorem claim9_generate_address_hex64 (randomBytes : List ℕ)
    (hlen : randomBytes.length = 32) (hrange : ∀ b ∈ randomBytes, b < 256) :
    (GenerateAddress randomBytes).length = 64 ∧
    ∀ c ∈ (GenerateAddress randomBytes).data, c ∈ hexDigits := by
  constructor
  · rw [show GenerateAddress randomBytes = hexEncodeToString randomBytes from rfl,
      hexEncodeToString_length, hlen]
  · intro c hc
    exact hexEncodeToString_mem randomBytes hrange c hc

/-- Witness for C9 at the all-zero 32-byte buffer. -/
theorem claim9_witness :
    (GenerateAddress (List.replicate 32 0)).length = 64 ∧
    ∀ c ∈ (GenerateAddress (List.replicate 32 0)).data, c ∈ hexDigits :=
  claim9_generate_address_hex64 (List.replicate 32 0) (by decide) (by decide)

/-- C10: a self-transfer `Send(W, W, a)` with the wallet present, `0 < a` and
`a ≤ balance(W)` succeeds; the debit and credit hit the same row and cancel,
so the wallet rows — hence `balance(W)` and the sum of all balances — are
exactly unchanged, and exactly one `(W, W, a)` transaction record is
appended. -/
theorem claim10_self_transfer (now : ℕ) (s : DBState) (w : String) (a b : ℚ)
    (hsel : selectBalance s.wallets w = some b) (hpos : 0 < a) (hba : a ≤ b) :
    (Send noFaults now s w w a).1 = .ok () ∧
    (Send noFaults now s w w a).2.wallets = s.wallets ∧
    selectBalance (Send noFaults now s w w a).2.wallets w = some b ∧
    sumBalances (Send noFaults now s w w a).2.wallets = sumBalances s.wallets ∧
    (Send noFaults now s w w a).2.transactions
      = s.transactions ++ [⟨s.nextId, w, w, a, now⟩] := by
  have hrun := Send_run_success noFaults now s w w a b rfl rfl rfl rfl rfl rfl hsel
    (not_lt.mpr hba)
  have hw : updateAll (updateAll s.wallets w (fun x => x - a)) w (fun x => x + a)
      = s.wallets := by
    rw [updateAll_updateAll_same]
    exact updateAll_id s.wallets w _ (fun x => by ring)
  rw [hrun]
  refine ⟨rfl, ?_, ?_, ?_, ?_⟩
  · show updateAll (updateAll s.wallets w (fun x => x - a)) w (fun x => x + a)
      = s.wallets
    exact hw
  · show selectBalance
        (updateAll (updateAll s.wallets w (fun x => x - a)) w (fun x => x + a)) w
      = some b
    rw [hw, hsel]
  · show sumBalances
        (updateAll (updateAll s.wallets w (fun x => x - a)) w (fun x => x + a))
      = sumBalances s.wallets
    rw [hw]
  · rfl

/-- Witness for C10: a self-transfer of 30 on a wallet holding 100. -/
theorem claim10_witness :
    (Send noFaults 0 ⟨[("w", 100)], [], 1⟩ "w" "w" 30).1 = .ok () ∧
    (Send noFaults 0 ⟨[("w", 100)], [], 1⟩ "w" "w" 30).2.wallets = [("w", 100)] ∧
    selectBalance (Send noFaults 0 ⟨[("w", 100)], [], 1⟩ "w" "w" 30).2.wallets "w"
      = some 100 ∧
    sumBalances (Send noFaults 0 ⟨[("w", 100)], [], 1⟩ "w" "w" 30).2.wallets
      = sumBalances [("w", (100 : ℚ))] ∧
    (Send noFaults 0 ⟨[("w", 100)], [], 1⟩ "w" "w" 30).2.transactions
      = [] ++ [⟨1, "w", "w", 30, 0⟩] :=
  claim10_self_transfer 0 ⟨[("w", 100)], [], 1⟩ "w" 30 100 rfl (by decide) (by decide)

namespace PaymentSystem

/-- Scenario record `T1` (earliest): inserted first (id 1) at timestamp 1. -/
def T1 : Txn := ⟨1, "w1", "w2", 1, 1⟩

/-- Scenario record `T2`: inserted second (id 2) at timestamp 2. -/
def T2 : Txn := ⟨2, "w1", "w2", 1, 2⟩

/-- Scenario record `T3` (latest): inserted third (id 3) at timestamp 3. -/
def T3 : Txn := ⟨3, "w1", "w2", 1, 3⟩

end PaymentSystem

/-- C3 counterexample: the query orders by `timestamp DESC` only — there is no
secondary `ORDER BY id` — so for two records sharing a timestamp the
insertion-id tie-break claimed by the spec is not guaranteed: the result that
lists id 1 before id 2 is a valid answer of the model of
`GetLastTransactions(2)`, yet it violates the claimed tie order. -/
theorem claim3_counterexample_no_id_tiebreak :
    GetLastTransactionsValid [⟨1, "x", "y", 1, 5⟩, ⟨2, "x", "y", 1, 5⟩] 2
      [⟨1, "x", "y", 1, 5⟩, ⟨2, "x", "y", 1, 5⟩] ∧
    ¬ claimTieOrdered [⟨1, "x", "y", 1, 5⟩, ⟨2, "x", "y", 1, 5⟩] := by
  constructor
  · exact ⟨[⟨1, "x", "y", 1, 5⟩, ⟨2, "x", "y", 1, 5⟩], List.Perm.refl _,
      by simp [sortedByTimestampDesc, List.chain'_cons], rfl⟩
  · simp [claimTieOrdered, List.chain'_cons]

/-- C3 (amended): `GetLastTransactions(limit)` returns up to `limit` records
ordered by timestamp descending; the relative order of records with equal
timestamps is unspecified (no id tie-break exists in the query).  When the
three inserted transfers `T1` (earliest), `T2`, `T3` (latest) carry strictly
increasing timestamps, `GetLastTransactions(3)` returns exactly
`[T3, T2, T1]`. -/
theorem claim3_amended_timestamp_order_only :
    (∀ (table : List Txn) (count : ℕ) (res : List Txn),
      GetLastTransactionsValid table count res →
      sortedByTimestampDesc res ∧ res.length ≤ count) ∧
    (∀ res : List Txn,
      GetLastTransactionsValid [T1, T2, T3] 3 res → res = [T3, T2, T1]) := by
  constructor
  · rintro table count res ⟨full, hperm, hsort, rfl⟩
    constructor
    · unfold sortedByTimestampDesc at hsort ⊢
      exact hsort.take count
    · rw [List.length_take]
      exact min_le_left _ _
  · rintro res ⟨full, hperm, hsort, rfl⟩
    have hmapperm : List.Perm (full.map Txn.timestamp) [1, 2, 3] := hperm.map _
    have hperm2 : List.Perm (full.map Txn.timestamp) [3, 2, 1] :=
      hmapperm.trans (List.reverse_perm [1, 2, 3]).symm
    have hsortmap : List.Chain' (fun a b : ℕ => b ≤ a) (full.map Txn.timestamp) :=
      (List.chain'_map Txn.timestamp).mpr hsort
    have hsorted31 : List.Chain' (fun a b : ℕ => b ≤ a) [3, 2, 1] := by
      simp [List.chain'_cons]
    haveI : IsTrans ℕ (fun a b : ℕ => b ≤ a) := ⟨fun a b c h1 h2 => le_trans h2 h1⟩
    haveI : IsAntisymm ℕ (fun a b : ℕ => b ≤ a) := ⟨fun a b h1 h2 => le_antisymm h2 h1⟩
    have hmapeq : full.map Txn.timestamp = [3, 2, 1] :=
      List.eq_of_perm_of_sorted hperm2 (List.chain'_iff_pairwise.mp hsortmap)
        (List.chain'_iff_pairwise.mp hsorted31)
    have hlen : full.length = 3 := by
      have := congrArg List.length hmapeq
      simpa using this
    rcases List.length_eq_three.mp hlen with ⟨x, y, z, rfl⟩
    have hts : x.timestamp = 3 ∧ y.timestamp = 2 ∧ z.timestamp = 1 := by
      simp [List.map_cons] at hmapeq
      exact hmapeq
    obtain ⟨hts1, hts2, hts3⟩ := hts
    have hxm : x ∈ [T1, T2, T3] := hperm.subset (by simp)
    have hym : y ∈ [T1, T2, T3] := hperm.subset (by simp)
    have hzm : z ∈ [T1, T2, T3] := hperm.subset (by simp)
    simp only [List.mem_cons, List.mem_singleton, List.not_mem_nil, or_false]
      at hxm hym hzm
    have hx : x = T3 := by
      rcases hxm with h | h | h
      · rw [h] at hts1
        exact absurd hts1 (by decide)
      · rw [h] at hts1
        exact absurd hts1 (by decide)
      · exact h
    have hy : y = T2 := by
      rcases hym with h | h | h
      · rw [h] at hts2
        exact absurd hts2 (by decide)
      · exact h
      · rw [h] at hts2
        exact absurd hts2 (by decide)
    have hz : z = T1 := by
      rcases hzm with h | h | h
      · exact h
      · rw [h] at hts3
        exact absurd hts3 (by decide)
      · rw [h] at hts3
        exact absurd hts3 (by decide)
    rw [hx, hy, hz]
    rfl

/-- Witness for C3 (amended): the singleton table, limit 1. -/
theorem claim3_witness :
    sortedByTimestampDesc [T1] ∧ [T1].length ≤ 1 :=
  claim3_amended_timestamp_order_only.1 [T1] 1 [T1]
    ⟨[T1], List.Perm.refl _, by simp [sortedByTimestampDesc], rfl⟩
